import Mathlib

/-!
Verification of the web-ifc loader core (src/src/wasm/include/web-ifc.h and
src/src/web-ifc-api.ts) against its natural-language specification.

Shallow embedding conventions.
The DynamicTape, Tokenizer and Parser live in headers that are not part of
the two source files; per the specification (sections 3 and 4.1) the tape
holds a prefix-typed token stream, the read cursor moves by whole tokens and
the reverse primitive backs up by exactly one token.  We therefore model the
tape at token granularity: a tape is a list of tokens, an absolute tape
offset is an index into that list, and a payload (string bytes, a u32 ref,
an f64 real) lives inside its token cell.  Every control-flow decision of
the loader code in web-ifc.h (depth tracking, which offsets are recorded,
early returns) is translated statement by statement; skipping a payload,
which at byte level advances the cursor past the payload bytes, is at token
granularity simply part of reading the one token.  C++ doubles are modelled
as exact rationals; u32 / size_t values as natural numbers; C++ int counters
(argument index, set depth) as integers.  Reads that the C++ performs with a
mismatched tag (undefined behaviour at byte level) are modelled as Option
failures; loops driven by unbounded while(true) are modelled with a fuel
argument that provably exceeds the number of tokens the loop can consume, so
a fuel exhaustion result coincides with the C++ cursor running off the tape.
-/

/-- The token tag set of the tape (IfcTokenType in the source; the numeric
values of the TypeScript mirror in web-ifc-api.ts lines 10-19). -/
inductive IfcTokenType where
  | UNKNOWN
  | STRING
  | LABEL
  | ENUM
  | REAL
  | REF
  | EMPTY
  | SET_BEGIN
  | SET_END
  | LINE_END
deriving DecidableEq, Repr

/-- One token on the tape: a tag plus its payload (section 3 of the spec).
Strings, labels and enums carry their bytes; REF carries a u32 handle; REAL
carries an f64 modelled as an exact rational. -/
inductive Tok where
  | UNKNOWN
  | EMPTY
  | SET_BEGIN
  | SET_END
  | LINE_END
  | STRING (s : String)
  | ENUM (s : String)
  | LABEL (s : String)
  | REF (n : Nat)
  | REAL (q : ℚ)
deriving DecidableEq, Repr

/-- The tag byte of a token. -/
def Tok.tag : Tok → IfcTokenType
  | .UNKNOWN => .UNKNOWN
  | .EMPTY => .EMPTY
  | .SET_BEGIN => .SET_BEGIN
  | .SET_END => .SET_END
  | .LINE_END => .LINE_END
  | .STRING _ => .STRING
  | .ENUM _ => .ENUM
  | .LABEL _ => .LABEL
  | .REF _ => .REF
  | .REAL _ => .REAL

/-- A line record (IfcLine from ifc-meta-data.h, as described by the spec,
section 3): handle, dense index, type code and the tape region of the line. -/
structure IfcLine where
  expressID : Nat
  lineIndex : Nat
  ifcType : Nat
  tapeOffset : Nat
  tapeEnd : Nat
deriving DecidableEq, Repr

/-- Placeholder record used to totalise vector indexing; the source indexes
std::vector directly and never reads out of range on the paths we verify. -/
def dummyLine : IfcLine := ⟨0, 0, 0, 0, 0⟩

/-- The index structures of a model (IfcMetaData).  unordered_map fields are
modelled as total functions from keys to the mapped values, defaulting to the
empty list exactly as operator[] default-constructs missing entries. -/
structure IfcMetaData where
  lines : List IfcLine
  expressIDToLine : List Nat
  ifcTypeToLineID : Nat → List Nat
  _relVoids : Nat → List Nat
  _relAggregates : Nat → List Nat
  _styledItems : Nat → List (Nat × Nat)
  _relMaterials : Nat → List (Nat × Nat)
  _materialDefinitions : Nat → List (Nat × Nat)
  linearScalingFactor : ℚ

/-- A fresh IfcMetaData: no lines, no indices, scaling factor 1. -/
def emptyMetaData : IfcMetaData :=
  { lines := []
    expressIDToLine := []
    ifcTypeToLineID := fun _ => []
    _relVoids := fun _ => []
    _relAggregates := fun _ => []
    _styledItems := fun _ => []
    _relMaterials := fun _ => []
    _materialDefinitions := fun _ => []
    linearScalingFactor := 1 }

/-!  Type codes.  Modelled from the spec: the numeric constants of the
generated schema header ifc2x4.h are not under src/; only their distinctness
matters to the loader code, so we fix arbitrary distinct values. -/

def IFCPROJECT : Nat := 103090709
def IFCSIUNIT : Nat := 448429030
def IFCUNITASSIGNMENT : Nat := 180925521
def IFCSTYLEDITEM : Nat := 3958052878
def IFCRELVOIDSELEMENT : Nat := 1401173065
def IFCRELAGGREGATES : Nat := 160246688
def IFCRELASSOCIATESMATERIAL : Nat := 2655215786
def IFCMATERIALDEFINITIONREPRESENTATION : Nat := 2022407955
def IFCGEOMETRICREPRESENTATIONCONTEXT : Nat := 3448662350

/-! ## Loader read primitives (web-ifc.h lines 390-541)

The tape cursor is threaded explicitly: each primitive takes the tape and the
current cursor (token index) and returns the decoded value together with the
cursor after the read.  A read with the wrong leading tag is undefined
behaviour in the source (it would reinterpret payload bytes); we return none
in that case, and every theorem below only exercises the defined paths. -/

/-- ExpressIDToLineID (line 390): expressIDToLine[expressID]. -/
def ExpressIDToLineID (md : IfcMetaData) (expressID : Nat) : Nat :=
  md.expressIDToLine.getD expressID 0

/-- GetLine (line 395): lines[lineID]. -/
def GetLine (md : IfcMetaData) (lineID : Nat) : IfcLine :=
  md.lines.getD lineID dummyLine

/-- GetExpressIDsWithType (lines 93-103): map the LineID list of the type
index through the expressID of each line record. -/
def GetExpressIDsWithType (md : IfcMetaData) (type : Nat) : List Nat :=
  (md.ifcTypeToLineID type).map (fun lineID => (GetLine md lineID).expressID)

/-- GetLineIDsWithType of the IfcLoader itself (lines 377-380) returns the
raw LineID list of the type index. -/
def GetLineIDsWithType (md : IfcMetaData) (type : Nat) : List Nat :=
  md.ifcTypeToLineID type

/-- GetStringArgument (lines 494-500): consume the tag byte, then read the
length-prefixed payload.  Defined for the three length-prefixed tags, which
is exactly when the source read is meaningful. -/
def GetStringArgument (toks : List Tok) (cursor : Nat) : Option (String × Nat) :=
  match toks.get? cursor with
  | some (.STRING s) => some (s, cursor + 1)
  | some (.ENUM s) => some (s, cursor + 1)
  | some (.LABEL s) => some (s, cursor + 1)
  | _ => none

/-- GetRefArgument (lines 521-525): consume the tag byte, then read the u32. -/
def GetRefArgument (toks : List Tok) (cursor : Nat) : Option (Nat × Nat) :=
  match toks.get? cursor with
  | some (.REF n) => some (n, cursor + 1)
  | _ => none

/-- GetRefArgument(tapeOffset) (lines 527-531): MoveTo then GetRefArgument;
with an explicit cursor the MoveTo is simply reading at the given offset. -/
def GetRefArgumentAt (toks : List Tok) (tapeOffset : Nat) : Option (Nat × Nat) :=
  GetRefArgument toks tapeOffset

/-- GetDoubleArgument (lines 509-513). -/
def GetDoubleArgument (toks : List Tok) (cursor : Nat) : Option (ℚ × Nat) :=
  match toks.get? cursor with
  | some (.REAL q) => some (q, cursor + 1)
  | _ => none

/-- GetTokenType (lines 533-536): read one tag byte and return it.  At token
granularity the cursor advances one whole token; every use in the source
either Reverse()s immediately or repositions with MoveTo afterwards, so the
composite behaviour coincides with the byte-level cursor. -/
def GetTokenType (toks : List Tok) (cursor : Nat) : Option (IfcTokenType × Nat) :=
  (toks.get? cursor).map (fun t => (t.tag, cursor + 1))

/-- Result of MoveToArgumentOffset (lines 415-477).  The source function
returns void and has exactly two return paths: the argument was reached
(cursor at its tag byte), or setDepth fell back to 0 at a SET_END (cursor
just past that SET_END).  It has no error path of any kind.  ranOff marks
the loop reading past the end of the tape, which in the source is an
out-of-bounds read. -/
inductive MoveResult where
  | found (cursor : Nat)
  | closed (cursor : Nat)
  | ranOff
deriving DecidableEq, Repr

/-- The while(true) loop of MoveToArgumentOffset, one iteration per token
read.  Statement order mirrors the source: at setDepth 1 the counter is
incremented and compared before the next token is read; SET_BEGIN and
SET_END adjust the depth, SET_END returning when depth reaches 0; every
other tag (including LINE_END, whose assert(false) is a no-op in release
builds) just skips its payload and continues. -/
def moveToArgLoop (toks : List Tok) (argumentIndex : Int) :
    Nat → Nat → Int → Int → MoveResult
  | fuel, cursor, movedOver, setDepth =>
    let mo := if setDepth = 1 then movedOver + 1 else movedOver
    if setDepth = 1 ∧ mo = argumentIndex then
      .found cursor
    else
      match fuel, toks.get? cursor with
      | 0, _ => .ranOff
      | _ + 1, none => .ranOff
      | fuel + 1, some t =>
        if t.tag = .SET_BEGIN then
          moveToArgLoop toks argumentIndex fuel (cursor + 1) mo (setDepth + 1)
        else if t.tag = .SET_END then
          if setDepth - 1 = 0 then .closed (cursor + 1)
          else moveToArgLoop toks argumentIndex fuel (cursor + 1) mo (setDepth - 1)
        else
          moveToArgLoop toks argumentIndex fuel (cursor + 1) mo setDepth

/-- MoveToArgumentOffset (lines 415-477): MoveTo(line.tapeOffset) then run
the loop with movedOver = -1 and setDepth = 0.  The fuel is one more than
the tape length: the loop consumes one token per iteration, so with this
fuel a ranOff result occurs exactly when the source loop reads past the end
of the tape. -/
def MoveToArgumentOffset (toks : List Tok) (line : IfcLine) (argumentIndex : Int) :
    MoveResult :=
  moveToArgLoop toks argumentIndex (toks.length + 1) line.tapeOffset (-1) 0

/-- The cursor at which the source continues after MoveToArgumentOffset:
both return paths leave a well-defined cursor; only running off the tape
(undefined in the source) yields none. -/
def moveCursor : MoveResult → Option Nat
  | .found c => some c
  | .closed c => some c
  | .ranOff => none

/-- The while(true) loop of GetSetArgument (lines 580-626): record the
offset of the token about to be read, read it; SET_BEGIN and SET_END only
adjust the depth, every other token has its offset appended to the result
(the assert(false) on tags the set grammar does not expect is a no-op in
release builds); stop when depth reaches 0.  Returns the recorded offsets
and the cursor after the closing SET_END. -/
def getSetLoop (toks : List Tok) :
    Nat → Nat → Int → List Nat → Option (List Nat × Nat)
  | 0, _, _, _ => none
  | fuel + 1, cursor, depth, acc =>
    match toks.get? cursor with
    | none => none
    | some t =>
      let depth' := if t.tag = .SET_BEGIN then depth + 1
                    else if t.tag = .SET_END then depth - 1 else depth
      let acc' := if t.tag = .SET_BEGIN ∨ t.tag = .SET_END then acc
                  else acc ++ [cursor]
      if depth' = 0 then some (acc', cursor + 1)
      else getSetLoop toks fuel (cursor + 1) depth' acc'

/-- GetSetArgument (lines 576-629): consume one tag byte (the SET_BEGIN,
unchecked in the source) and run the loop with depth 1. -/
def GetSetArgument (toks : List Tok) (cursor : Nat) : Option (List Nat × Nat) :=
  getSetLoop toks (toks.length + 1) (cursor + 1) 1 []

/-- std::vector::resize with zero-filled growth: shrinks to the first n
elements when n is smaller than the current size, otherwise pads with 0. -/
def vresize (v : List Nat) (n : Nat) : List Nat :=
  v.take n ++ List.replicate (n - v.length) 0

/-- UpdateLineTape (lines 543-574), translated statement by statement.  The
new-line test is expressID >= expressIDToLine.size() || expressIDToLine[id]
== 0; the new branch resizes the handle map to expressID * 2, appends a line
record, writes its LineID into the handle map and appends the LineID to the
type index; both branches finish by storing the new tape region into the
record the handle map currently points at.  (List.set, like the source's
vector indexing, is the identity when the index is out of range; the source
would be out-of-bounds there, which happens only for expressID 0.) -/
def UpdateLineTape (md : IfcMetaData) (expressID type start tapeEnd : Nat) :
    IfcMetaData :=
  let md' :=
    if expressID ≥ md.expressIDToLine.length ∨ md.expressIDToLine.getD expressID 0 = 0 then
      let e := vresize md.expressIDToLine (expressID * 2)
      let lineID := md.lines.length
      { md with
        lines := md.lines ++ [⟨expressID, lineID, type, 0, 0⟩]
        expressIDToLine := e.set expressID lineID
        ifcTypeToLineID := fun t =>
          if t = type then md.ifcTypeToLineID t ++ [lineID] else md.ifcTypeToLineID t }
    else md
  let lineID := md'.expressIDToLine.getD expressID 0
  { md' with
    lines := md'.lines.set lineID
      { md'.lines.getD lineID dummyLine with tapeOffset := start, tapeEnd := tapeEnd } }

/-- ConvertPrefix (lines 120-194): the SI prefix table.  The C++ returns
doubles; the decimal literals are modelled as exact rationals. -/
def ConvertPrefix (pfx : String) : ℚ :=
  if pfx = "" then 1
  else if pfx = "EXA" then 1000000000000000000
  else if pfx = "PETA" then 1000000000000000
  else if pfx = "TERA" then 1000000000000
  else if pfx = "GIGA" then 1000000000
  else if pfx = "MEGA" then 1000000
  else if pfx = "KILO" then 1000
  else if pfx = "HECTO" then 100
  else if pfx = "DECA" then 10
  else if pfx = "DECI" then 1 / 10
  else if pfx = "CENTI" then 1 / 100
  else if pfx = "MILLI" then 1 / 1000
  else if pfx = "MICRO" then 1 / 1000000
  else if pfx = "NANO" then 1 / 1000000000
  else if pfx = "PICO" then 1 / 1000000000000
  else if pfx = "FEMTO" then 1 / 1000000000000000
  else if pfx = "ATTO" then 1 / 1000000000000000000
  else 1

/-- The body of the for loop over unitIds in ReadLinearScalingFactor
(lines 218-247): resolve the REF at the recorded offset, look the line up,
and if it is an IFCSIUNIT read unit type (argument 1), the optional prefix
enum (argument 2, read only when GetTokenType sees an ENUM, after a
Reverse), and unit name (argument 3); when the type is LENGTHUNIT and the
name METRE, store the prefix multiplier. -/
def processUnit (toks : List Tok) (md : IfcMetaData) (unitID : Nat) : IfcMetaData :=
  match GetRefArgumentAt toks unitID with
  | none => md
  | some (unitRef, _) =>
    let line := GetLine md (ExpressIDToLineID md unitRef)
    if line.ifcType = IFCSIUNIT then
      match moveCursor (MoveToArgumentOffset toks line 1) with
      | none => md
      | some c1 =>
        match GetStringArgument toks c1 with
        | none => md
        | some (unitType, _) =>
          match moveCursor (MoveToArgumentOffset toks line 2) with
          | none => md
          | some c2 =>
            let unitPfx : String :=
              match GetTokenType toks c2 with
              | some (.ENUM, c') =>
                -- Reverse() backs up one token, then GetStringArgument
                match GetStringArgument toks (c' - 1) with
                | some (s, _) => s
                | none => ""
              | _ => ""
            match moveCursor (MoveToArgumentOffset toks line 3) with
            | none => md
            | some c3 =>
              match GetStringArgument toks c3 with
              | none => md
              | some (unitName, _) =>
                if unitType = "LENGTHUNIT" ∧ unitName = "METRE" then
                  { md with linearScalingFactor := ConvertPrefix unitPfx }
                else md
    else md

/-- ReadLinearScalingFactor (lines 196-248): find the IFCPROJECT lines,
bail out (leaving the factor unchanged) unless there is exactly one, follow
its argument 8 to the unit assignment, read that line's argument-0 set, and
process each recorded element offset.  The std::cout diagnostic on the bail
path has no model state. -/
def ReadLinearScalingFactor (toks : List Tok) (md : IfcMetaData) : IfcMetaData :=
  let projects := GetExpressIDsWithType md IFCPROJECT
  if projects.length ≠ 1 then md
  else
    let projectEID := projects.headD 0
    let line := GetLine md (ExpressIDToLineID md projectEID)
    match moveCursor (MoveToArgumentOffset toks line 8) with
    | none => md
    | some c =>
      match GetRefArgument toks c with
      | none => md
      | some (unitsID, _) =>
        let unitsLine := GetLine md (ExpressIDToLineID md unitsID)
        match moveCursor (MoveToArgumentOffset toks unitsLine 0) with
        | none => md
        | some c2 =>
          match GetSetArgument toks c2 with
          | none => md
          | some (unitIds, _) =>
            unitIds.foldl (fun m unitID => processUnit toks m unitID) md

/-- PopulateRelVoidsMap (lines 250-266): for each IFCRELVOIDSELEMENT line,
move to argument 4 and read two consecutive REFs; append the opening to
_relVoids[buildingElement]. -/
def PopulateRelVoidsMap (toks : List Tok) (md : IfcMetaData) : IfcMetaData :=
  (GetExpressIDsWithType md IFCRELVOIDSELEMENT).foldl (fun m relVoidID =>
    let line := GetLine m (ExpressIDToLineID m relVoidID)
    match moveCursor (MoveToArgumentOffset toks line 4) with
    | none => m
    | some c =>
      match GetRefArgument toks c with
      | none => m
      | some (relating, c') =>
        match GetRefArgument toks c' with
        | none => m
        | some (related, _) =>
          { m with _relVoids := fun k =>
              if k = relating then m._relVoids k ++ [related] else m._relVoids k })
    md

/-- The inner loop shared by the aggregate-style passes: resolve the REF at
each recorded offset and append it to the map entry of the given key. -/
def appendRefsLoop (toks : List Tok) (key : Nat) (offs : List Nat)
    (tbl : Nat → List Nat) : Nat → List Nat :=
  offs.foldl (fun t off =>
    match GetRefArgumentAt toks off with
    | none => t
    | some (refID, _) => fun k => if k = key then t k ++ [refID] else t k) tbl

/-- PopulateRelAggregatesMap (lines 268-288): at argument 4 read the parent
REF then the set of children; append each child to _relAggregates[parent]. -/
def PopulateRelAggregatesMap (toks : List Tok) (md : IfcMetaData) : IfcMetaData :=
  (GetExpressIDsWithType md IFCRELAGGREGATES).foldl (fun m relID =>
    let line := GetLine m (ExpressIDToLineID m relID)
    match moveCursor (MoveToArgumentOffset toks line 4) with
    | none => m
    | some c =>
      match GetRefArgument toks c with
      | none => m
      | some (relating, c') =>
        match GetSetArgument toks c' with
        | none => m
        | some (aggregates, _) =>
          { m with _relAggregates := appendRefsLoop toks relating aggregates m._relAggregates })
    md

/-- The inner loop of PopulateStyledItemMap (lines 311-315): resolve each
recorded offset to a style-assignment handle and append the pair
(styledItemID, styleAssignmentID) to _styledItems[representationItem]. -/
def styledItemLoop (toks : List Tok) (styledItemID representationItem : Nat)
    (offs : List Nat) (tbl : Nat → List (Nat × Nat)) : Nat → List (Nat × Nat) :=
  offs.foldl (fun t off =>
    match GetRefArgumentAt toks off with
    | none => t
    | some (said, _) => fun k =>
        if k = representationItem then t k ++ [(styledItemID, said)] else t k) tbl

/-- PopulateStyledItemMap (lines 290-318): for each IFCSTYLEDITEM line, move
to argument 0; if the token there is a REF, Reverse and read it as the
representation item (the subsequent GetLine of that item is an unused local
copy in the source), then - without repositioning the cursor - read the set
that follows, i.e. argument 1, and append the pairs. -/
def PopulateStyledItemMap (toks : List Tok) (md : IfcMetaData) : IfcMetaData :=
  (GetExpressIDsWithType md IFCSTYLEDITEM).foldl (fun m styledItemID =>
    let line := GetLine m (ExpressIDToLineID m styledItemID)
    match moveCursor (MoveToArgumentOffset toks line 0) with
    | none => m
    | some c =>
      match GetTokenType toks c with
      | some (.REF, c') =>
        -- Reverse() backs the cursor up one token, then GetRefArgument
        match GetRefArgument toks (c' - 1) with
        | none => m
        | some (representationItem, c2) =>
          match GetSetArgument toks c2 with
          | none => m
          | some (styleAssignments, _) =>
            let tbl := styledItemLoop toks styledItemID representationItem
                styleAssignments m._styledItems
            { m with _styledItems := tbl }
      | _ => m)
    md

/-- The inner pair-appending loop shared by the two halves of
PopulateRelMaterialsMap: append (lineHandle, fixedID) or (lineHandle, ref)
pairs per recorded offset. -/
def pairLoop (toks : List Tok) (lineHandle : Nat) (keyFromRef : Bool) (fixedID : Nat)
    (offs : List Nat) (tbl : Nat → List (Nat × Nat)) : Nat → List (Nat × Nat) :=
  offs.foldl (fun t off =>
    match GetRefArgumentAt toks off with
    | none => t
    | some (refID, _) =>
      let key := if keyFromRef then refID else fixedID
      let pairSnd := if keyFromRef then fixedID else refID
      fun k => if k = key then t k ++ [(lineHandle, pairSnd)] else t k) tbl

/-- PopulateRelMaterialsMap (lines 320-365): first loop, for each
IFCRELASSOCIATESMATERIAL line read the material REF at argument 5, then the
related-object set at argument 4, appending (handle, material) under each
object; second loop, for each IFCMATERIALDEFINITIONREPRESENTATION line read
the representation set at argument 2 and the material REF at argument 3,
appending (handle, representation) under the material. -/
def PopulateRelMaterialsMap (toks : List Tok) (md : IfcMetaData) : IfcMetaData :=
  let md1 := (GetExpressIDsWithType md IFCRELASSOCIATESMATERIAL).foldl (fun m relID =>
    let line := GetLine m (ExpressIDToLineID m relID)
    match moveCursor (MoveToArgumentOffset toks line 5) with
    | none => m
    | some c =>
      match GetRefArgument toks c with
      | none => m
      | some (materialSelect, _) =>
        match moveCursor (MoveToArgumentOffset toks line 4) with
        | none => m
        | some c2 =>
          match GetSetArgument toks c2 with
          | none => m
          | some (relatedObjects, _) =>
            { m with _relMaterials :=
                pairLoop toks relID true materialSelect relatedObjects m._relMaterials })
    md
  (GetExpressIDsWithType md1 IFCMATERIALDEFINITIONREPRESENTATION).foldl (fun m defID =>
    let line := GetLine m (ExpressIDToLineID m defID)
    match moveCursor (MoveToArgumentOffset toks line 2) with
    | none => m
    | some c =>
      match GetSetArgument toks c with
      | none => m
      | some (representations, _) =>
        match moveCursor (MoveToArgumentOffset toks line 3) with
        | none => m
        | some c2 =>
          match GetRefArgument toks c2 with
          | none => m
          | some (material, _) =>
            { m with _materialDefinitions :=
                pairLoop toks defID false material representations m._materialDefinitions })
    md1

/-! ## DumpAsIFC (lines 631-768): header, footer and REAL precision

Only the parts of the serializer that the claims depend on are modelled: the
fixed header stub, the fixed footer, and the stream precision used for REAL
payloads.  std::endl is a newline. -/

/-- The single-quote character, built numerically so the emitted quoting can
be inspected. -/
def quoteChar : Char := Char.ofNat 39

/-- Shorthand for a one-character quote string. -/
def q1 : String := String.singleton quoteChar

/-- The placeholder description (line 636). -/
def dumpDescription : String := "no description"

/-- The placeholder name (line 637). -/
def dumpName : String := "no name"

/-- Line 641 of the source, character for character:
file << "FILE_DESCRIPTION((QQ" << description << "), QQ2;1QQ);"
where QQ marks a single-quote character.  Note the template opens a quote
before the description but never closes it. -/
def fileDescriptionLine : String :=
  "FILE_DESCRIPTION((" ++ q1 ++ dumpDescription ++ "), " ++ q1 ++ "2;1" ++ q1 ++ ");"

/-- Line 642 of the source: the FILE_NAME header line, whose placeholder is
quoted on both sides. -/
def fileNameLine : String :=
  "FILE_NAME(" ++ q1 ++ dumpName ++ q1 ++ ", " ++ q1 ++ q1 ++ ", (" ++ q1 ++ q1 ++
    "), (" ++ q1 ++ q1 ++ "), " ++ q1 ++ "web-ifc-export" ++ q1 ++ ");"

/-- Line 643 of the source: the FILE_SCHEMA header line. -/
def fileSchemaLine : String :=
  "FILE_SCHEMA((" ++ q1 ++ "IFC2X3" ++ q1 ++ "));"

/-- The complete header stub written by DumpAsIFC before any data line
(lines 639-645). -/
def dumpHeader : String :=
  "ISO-10303-21;" ++ "\n" ++ "HEADER;" ++ "\n" ++ fileDescriptionLine ++ "\n" ++
    fileNameLine ++ "\n" ++ fileSchemaLine ++ "\n" ++ "ENDSEC;" ++ "\n" ++
    "DATA;" ++ "\n"

/-- The footer written after the data section (line 765). -/
def dumpFooter : String := "ENDSEC;" ++ "\n" ++ "END-ISO-10303-21;"

/-- Number of single-quote characters in a string.  Any text that consists
of complete single-quoted STEP strings (each delimited by one opening and
one closing quote, literal quotes escaped as doubled quotes) contains an
even number of quote characters. -/
def quoteCount (s : String) : Nat := s.toList.count quoteChar

/-- The stream precision DumpAsIFC installs for REAL payloads (line 634):
std::setprecision(std::numeric_limits<double>::digits10 + 1), and digits10
of an IEEE-754 binary64 double is 15. -/
def dumpRealPrecision : Nat := 15 + 1

/-- The 16-significant-digit decimal mantissa that a stream at the above
precision prints for a tape REAL whose exact value is num/den with
1/10 <= num/den < 1: the integer nearest num * 10^16 / den (half rounded
up; the witnesses below are nowhere near a tie, so every
round-to-nearest convention agrees on them). -/
def printedMantissa16 (num den : Nat) : Nat :=
  (2 * (num * 10 ^ 16) + den) / (2 * den)

/-! ## The TypeScript write path (web-ifc-api.ts lines 164-210)

WriteLine walks the caller's line object: a property that is an object
carrying an expressID is recursively written and then overwritten in place
by a handle object with type 5; an element of an array-valued property that
carries an expressID is treated the same way; every other property value is
left alone.  Afterwards the (now mutated) object is serialised through
ToTape() and written as a raw line.  JavaScript values are modelled by a
tree; in-place mutation is modelled by returning the mutated tree alongside
the emitted raw-line writes, in emission order. -/

/-- A JavaScript value as the write path distinguishes them: a primitive
(number), a string, a tagged handle object with no expressID field, an
entity object carrying an expressID, or an array. -/
inductive JsVal where
  | num (v : ℚ)
  | str (s : String)
  | refVal (type : Nat) (value : Nat)
  | entity (expressID : Nat) (etype : Nat) (props : List (String × JsVal))
  | arr (elems : List JsVal)

/-- One WriteRawLineData call (lines 235-238): the express ID, the type, and
the arguments object passed through ToTape().  ToTape itself lives in the
generated schema helper outside src/; modelled from the spec, it serialises
the mutated object, which we record directly. -/
structure WriteRec where
  eid : Nat
  wtype : Nat
  args : List (String × JsVal)

mutual

/-- The forEach body of WriteLine applied to one property value. -/
def writeProp : JsVal → List WriteRec × JsVal
  | .entity e t ps =>
    -- property.expressID !== undefined: recursively WriteLine the object,
    -- then overwrite the property with the handle object type 5
    let r := writeProps ps
    (r.1 ++ [⟨e, t, r.2⟩], .refVal 5 e)
  | .arr es =>
    -- Array.isArray(property): mutate the elements in place
    let r := writeElems es
    (r.1, .arr r.2)
  | v => ([], v)

/-- The element loop of the array branch: only elements with an expressID
are written and replaced; nothing else is touched. -/
def writeElems : List JsVal → List WriteRec × List JsVal
  | [] => ([], [])
  | .entity e t ps :: rest =>
    let r := writeProps ps
    let rr := writeElems rest
    (r.1 ++ [⟨e, t, r.2⟩] ++ rr.1, .refVal 5 e :: rr.2)
  | v :: rest =>
    let rr := writeElems rest
    (rr.1, v :: rr.2)

/-- Object.keys(lineObject).forEach over the properties, in order. -/
def writeProps : List (String × JsVal) → List WriteRec × List (String × JsVal)
  | [] => ([], [])
  | (k, v) :: rest =>
    let r := writeProp v
    let rr := writeProps rest
    (r.1 ++ rr.1, (k, r.2) :: rr.2)

end

/-- WriteLine (lines 164-210) on an entity object: mutate the properties,
then emit the object itself as a raw line whose arguments are the mutated
properties.  Returns the WriteRawLineData calls in order and the mutated
property list of the caller's object. -/
def WriteLine (expressID etype : Nat) (props : List (String × JsVal)) :
    List WriteRec × List (String × JsVal) :=
  let r := writeProps props
  (r.1 ++ [⟨expressID, etype, r.2⟩], r.2)

/-- The replacement WriteLine performs on one property value, as the spec
describes it: an object carrying an expressID becomes the handle object
with type 5 and value expressID; inside an array-valued property every
element carrying an expressID becomes such a handle; all else is kept. -/
def replacedVal : JsVal → JsVal
  | .entity e _ _ => .refVal 5 e
  | .arr es => .arr (es.map fun v =>
      match v with
      | .entity e _ _ => .refVal 5 e
      | x => x)
  | v => v

/-! ## The IfcLoader object (lines 49-781)

The loader owns the open flag (line 776: bool _open = false), the tape and
the metadata.  The byte-level read cursor lives inside the tape; it is kept
as an explicit field here.  LoadFile (lines 105-118) tokenizes and parses -
both live outside src/; modelled from the spec (sections 4.2-4.3), the
tokenizer appends the content's tokens to the tape and the parser performs
one line-record insertion per parsed line, which is the same insertion
UpdateLineTape performs - and then runs the four relationship passes and
the unit-scaling pass in source order. -/

structure IfcLoaderState where
  _open : Bool
  _tape : List Tok
  _metaData : IfcMetaData
  _readPtr : Nat

/-- The IfcLoader constructor (lines 52-56) together with the member
initialisers (lines 776-780): the open flag starts false. -/
def initLoader : IfcLoaderState :=
  { _open := false, _tape := [], _metaData := emptyMetaData, _readPtr := 0 }

/-- One public operation on a loader, with the data each needs.  loadFile
carries the tokenized content and the per-line records the parser would
discover in it. -/
inductive LoaderOp where
  | pushDataToTape (data : List Tok)
  | loadFile (content : List Tok) (parsedLines : List (Nat × Nat × Nat × Nat))
  | updateLineTape (expressID type start tapeEnd : Nat)
  | dumpAsIFC
  | getLineIDsWithType (type : Nat)
  | getExpressIDsWithType (type : Nat)
  | moveToArgumentOffset (lineID : Nat) (argumentIndex : Int)
  | getSetArgument
  | readLinearScalingFactor
  | isOpen

/-- Apply one operation to the loader state.  Each translated member
function updates the tape, the metadata or the read cursor; none of them
mentions the open flag (no assignment to _open occurs anywhere in the
class). -/
def applyOp (st : IfcLoaderState) : LoaderOp → IfcLoaderState
  | .pushDataToTape data => { st with _tape := st._tape ++ data }
  | .loadFile content parsedLines =>
    let toks := st._tape ++ content
    let md0 := parsedLines.foldl
      (fun m r => UpdateLineTape m r.1 r.2.1 r.2.2.1 r.2.2.2) st._metaData
    let md1 := PopulateRelVoidsMap toks md0
    let md2 := PopulateRelAggregatesMap toks md1
    let md3 := PopulateStyledItemMap toks md2
    let md4 := PopulateRelMaterialsMap toks md3
    let md5 := ReadLinearScalingFactor toks md4
    { st with _tape := toks, _metaData := md5 }
  | .updateLineTape e t s f =>
    { st with _metaData := UpdateLineTape st._metaData e t s f }
  | .dumpAsIFC =>
    -- serialisation walks the tape with MoveTo; it only moves the cursor
    { st with _readPtr := 0 }
  | .getLineIDsWithType _ => st
  | .getExpressIDsWithType _ => st
  | .moveToArgumentOffset lineID i =>
    match moveCursor (MoveToArgumentOffset st._tape (GetLine st._metaData lineID) i) with
    | some c => { st with _readPtr := c }
    | none => st
  | .getSetArgument =>
    match GetSetArgument st._tape st._readPtr with
    | some (_, c) => { st with _readPtr := c }
    | none => st
  | .readLinearScalingFactor =>
    { st with _metaData := ReadLinearScalingFactor st._tape st._metaData }
  | .isOpen => st

/-- IsOpen (lines 410-413): return the private open flag.  (Namespaced
because Mathlib already has a root-level IsOpen.) -/
def IfcLoaderState.IsOpen (st : IfcLoaderState) : Bool := st._open

/-! ## Helper lemmas -/

/-- No loader operation changes the open flag. -/
lemma applyOp_open (st : IfcLoaderState) (op : LoaderOp) :
    (applyOp st op)._open = st._open := by
  cases op with
  | moveToArgumentOffset lineID i =>
    simp only [applyOp]
    cases moveCursor (MoveToArgumentOffset st._tape (GetLine st._metaData lineID) i) <;> rfl
  | getSetArgument =>
    simp only [applyOp]
    cases h : GetSetArgument st._tape st._readPtr with
    | none => rfl
    | some p => cases p; rfl
  | _ => rfl

/-- Folding any operation list leaves the open flag unchanged. -/
lemma foldl_applyOp_open (ops : List LoaderOp) :
    ∀ st : IfcLoaderState, (ops.foldl applyOp st)._open = st._open := by
  induction ops with
  | nil => intro st; rfl
  | cons op rest ih => intro st; rw [List.foldl_cons, ih, applyOp_open]

/-- C10: For every IfcLoader instance, IsOpen returns false at construction
and after every sequence of public operations: no member function of the
class assigns the private open flag, so it keeps its initial value false. -/
theorem isOpen_always_false (ops : List LoaderOp) :
    (ops.foldl applyOp initLoader).IsOpen = false := by
  rw [IfcLoaderState.IsOpen, foldl_applyOp_open]
  rfl

/-! ## C2: the UpdateLineTape handle-map bug -/

/-- C2: the claim fails on the code.  UpdateLineTape detects "new" handles
with the test expressIDToLine[expressID] == 0, but 0 is also the LineID of
the first line ever created, and resize(expressID * 2) shrinks the handle
map whenever expressID * 2 is below its current size.  Concretely: writing
handle 1 and then rewriting handle 1 leaves TWO line records and a
duplicated type-index entry instead of rewriting the offsets of the first
record (whose stale region survives at tapeOffset 0); and writing handles
8, 9 and then the fresh handle 2 shrinks the handle map from 18 entries to
4, destroying the established mapping of handle 9 to LineID 1. -/
theorem updateLineTape_violates_handle_map_claim :
    ((UpdateLineTape (UpdateLineTape emptyMetaData 1 42 0 10) 1 42 10 20).lines =
      [⟨1, 0, 42, 0, 10⟩, ⟨1, 1, 42, 10, 20⟩]
     ∧ (UpdateLineTape (UpdateLineTape emptyMetaData 1 42 0 10) 1 42 10 20).ifcTypeToLineID 42
        = [0, 1])
    ∧ ((UpdateLineTape (UpdateLineTape emptyMetaData 8 42 0 10) 9 42 10 20).expressIDToLine.getD 9 0 = 1
       ∧ (UpdateLineTape (UpdateLineTape (UpdateLineTape emptyMetaData 8 42 0 10) 9 42 10 20)
            2 42 20 30).expressIDToLine = [0, 0, 2, 0]
       ∧ (UpdateLineTape (UpdateLineTape (UpdateLineTape emptyMetaData 8 42 0 10) 9 42 10 20)
            2 42 20 30).lines.getD 1 dummyLine = ⟨9, 1, 42, 10, 20⟩) := by
  constructor
  · constructor <;> rfl
  · refine ⟨rfl, rfl, rfl⟩

/-! ## C4: REAL precision in DumpAsIFC -/

/-- C4: the claim fails on the code.  DumpAsIFC installs stream precision
digits10 + 1 = 16, not the max_digits10 = 17 needed for round-tripping.
The two adjacent doubles 5404319552844595/2^54 (the double nearest 0.3) and
5404319552844596/2^54 (the double value of 0.1 + 0.2) are distinct tape
REAL values, yet at 16 significant digits both print the same decimal
mantissa 3000000000000000, so re-tokenizing the dumped text cannot recover
both originals bit-for-bit. -/
theorem dumpAsIFC_real_precision_not_roundtrip :
    dumpRealPrecision = 16 ∧ dumpRealPrecision ≠ 17
    ∧ printedMantissa16 5404319552844595 18014398509481984 = 3000000000000000
    ∧ printedMantissa16 5404319552844596 18014398509481984 = 3000000000000000
    ∧ (5404319552844595 : Nat) ≠ 5404319552844596
    ∧ (18014398509481984 : Nat) = 2 ^ 54 := by
  refine ⟨rfl, by decide, by norm_num [printedMantissa16], by norm_num [printedMantissa16],
    by decide, by norm_num⟩

/-! ## C5: the DumpAsIFC header stub -/

/-- C5: the claim fails on the code.  The FILE_DESCRIPTION template at line
641 opens a quote before the placeholder description but never closes it,
so the emitted line contains three quote characters - an odd number, hence
not a sequence of complete single-quoted strings (every complete STEP
string contributes an even count: its two delimiters plus doubled escapes).
The FILE_NAME line, built correctly at line 642, has an even count. -/
theorem dumpHeader_description_quote_unbalanced :
    quoteCount fileDescriptionLine = 3
    ∧ quoteCount fileDescriptionLine % 2 = 1
    ∧ quoteCount fileNameLine = 10
    ∧ quoteCount fileNameLine % 2 = 0
    ∧ dumpHeader = "ISO-10303-21;" ++ "\n" ++ "HEADER;" ++ "\n" ++ fileDescriptionLine ++
        "\n" ++ fileNameLine ++ "\n" ++ fileSchemaLine ++ "\n" ++ "ENDSEC;" ++ "\n" ++
        "DATA;" ++ "\n" := by
  refine ⟨by decide, by decide, by decide, by decide, rfl⟩

/-! ## C1: GetSetArgument -/

/-- The consecutive indices a, a+1, ..., a+n-1. -/
def idxRange : Nat → Nat → List Nat
  | _, 0 => []
  | a, n + 1 => a :: idxRange (a + 1) n

lemma idxRange_zero (a : Nat) : idxRange a 0 = [] := rfl

lemma idxRange_succ (a n : Nat) : idxRange a (n + 1) = a :: idxRange (a + 1) n := rfl

/-- Whether the token at index i is a set bracket. -/
def bracketAt (toks : List Tok) (i : Nat) : Bool :=
  match toks.get? i with
  | some t => t.tag = IfcTokenType.SET_BEGIN ∨ t.tag = IfcTokenType.SET_END
  | none => false

/-- Invariant of the GetSetArgument loop: when it terminates normally it has
recorded, beyond its accumulator, the offset of every non-bracket token of
the region it consumed - at every nesting depth. -/
lemma getSetLoop_eq (toks : List Tok) :
    ∀ (fuel cursor : Nat) (depth : Int) (acc offs : List Nat) (fin : Nat),
      getSetLoop toks fuel cursor depth acc = some (offs, fin) →
      cursor ≤ fin ∧
        offs = acc ++ (idxRange cursor (fin - cursor)).filter (fun i => ! bracketAt toks i) := by
  intro fuel
  induction fuel with
  | zero => intro cursor depth acc offs fin h; simp [getSetLoop] at h
  | succ fuel ih =>
    intro cursor depth acc offs fin h
    rw [getSetLoop] at h
    cases hg : toks.get? cursor with
    | none => rw [hg] at h; exact absurd h (by simp)
    | some t =>
      rw [hg] at h
      simp only at h
      by_cases hb : t.tag = IfcTokenType.SET_BEGIN ∨ t.tag = IfcTokenType.SET_END
      · -- a bracket: no offset recorded at this cursor
        have hbc : bracketAt toks cursor = true := by
          rw [bracketAt, hg]; simpa using hb
        rw [if_pos hb] at h
        by_cases hd : (if t.tag = IfcTokenType.SET_BEGIN then depth + 1
            else if t.tag = IfcTokenType.SET_END then depth - 1 else depth) = 0
        · rw [if_pos hd] at h
          simp only [Option.some.injEq, Prod.mk.injEq] at h
          obtain ⟨h1, h2⟩ := h
          subst h2
          refine ⟨by omega, ?_⟩
          have hfc : cursor + 1 - cursor = 1 := by omega
          rw [hfc, idxRange_succ, idxRange_zero, ← h1]
          simp [hbc]
        · rw [if_neg hd] at h
          obtain ⟨hle, ho⟩ := ih _ _ _ _ _ h
          refine ⟨by omega, ?_⟩
          have hfc : fin - cursor = (fin - (cursor + 1)) + 1 := by omega
          rw [hfc, idxRange_succ, ho]
          simp [hbc]
      · -- not a bracket: the offset is recorded
        have hbc : bracketAt toks cursor = false := by
          rw [bracketAt, hg]; simpa using hb
        rw [if_neg hb] at h
        have hdep : (if t.tag = IfcTokenType.SET_BEGIN then depth + 1
            else if t.tag = IfcTokenType.SET_END then depth - 1 else depth) = depth := by
          rw [if_neg (fun hh => hb (Or.inl hh)), if_neg (fun hh => hb (Or.inr hh))]
        rw [hdep] at h
        by_cases hd : depth = 0
        · rw [if_pos hd] at h
          simp only [Option.some.injEq, Prod.mk.injEq] at h
          obtain ⟨h1, h2⟩ := h
          subst h2
          refine ⟨by omega, ?_⟩
          have hfc : cursor + 1 - cursor = 1 := by omega
          rw [hfc, idxRange_succ, idxRange_zero, ← h1]
          simp [hbc]
        · rw [if_neg hd] at h
          obtain ⟨hle, ho⟩ := ih _ _ _ _ _ h
          refine ⟨by omega, ?_⟩
          have hfc : fin - cursor = (fin - (cursor + 1)) + 1 := by omega
          rw [hfc, idxRange_succ, ho]
          simp [hbc]

/-- The nested-set example: the tape region ( ( #1 ) #2 ). -/
def nestedSetToks : List Tok :=
  [.SET_BEGIN, .SET_BEGIN, .REF 1, .SET_END, .REF 2, .SET_END]

/-- C1, counterexample: the claim is false as stated.  On the argument
( ( #1 ) #2 ) the top-level elements are the inner set and #2, yet
GetSetArgument returns the offsets 2 and 4 - and offset 2 is the REF 1
token lying INSIDE the nested set opened at offset 1 and closed at offset
3.  The contents of nested sets are therefore not skipped: they appear
among the returned offsets. -/
theorem getSetArgument_includes_nested_contents :
    GetSetArgument nestedSetToks 0 = some ([2, 4], 6)
    ∧ nestedSetToks.get? 1 = some .SET_BEGIN
    ∧ nestedSetToks.get? 2 = some (.REF 1)
    ∧ nestedSetToks.get? 3 = some .SET_END
    ∧ 2 ∈ [2, 4] := by
  refine ⟨rfl, rfl, rfl, rfl, by decide⟩

/-- C1 as amended: GetSetArgument returns the offsets of every non-bracket
token it reads before the matching SET_END, at every nesting depth - the
contents of nested sets are included, flattened, not skipped; depth
tracking serves only to locate the matching SET_END.  (When the argument
contains no nested set these offsets are exactly the top-level elements.) -/
theorem getSetArgument_offsets (toks : List Tok) (cursor : Nat)
    (offs : List Nat) (fin : Nat)
    (h : GetSetArgument toks cursor = some (offs, fin)) :
    offs = (idxRange (cursor + 1) (fin - (cursor + 1))).filter
      (fun i => ! bracketAt toks i) := by
  obtain ⟨-, ho⟩ := getSetLoop_eq toks _ _ _ _ _ _ h
  simpa using ho

/-- Witness for the amended C1 on a flat set ( #9 #8 ): the returned
offsets 1 and 2 are exactly the non-bracket offsets of the region, i.e.
the top-level elements. -/
theorem getSetArgument_offsets_witness :
    GetSetArgument [Tok.SET_BEGIN, Tok.REF 9, Tok.REF 8, Tok.SET_END] 0 = some ([1, 2], 4)
    ∧ [1, 2] = (idxRange 1 3).filter
        (fun i => ! bracketAt [Tok.SET_BEGIN, Tok.REF 9, Tok.REF 8, Tok.SET_END] i) := by
  refine ⟨rfl, ?_⟩
  have h := getSetArgument_offsets [Tok.SET_BEGIN, Tok.REF 9, Tok.REF 8, Tok.SET_END]
    0 [1, 2] 4 rfl
  simpa using h

/-! ## C3: MoveToArgumentOffset on a missing argument -/

/-- Entering the loop: MoveToArgumentOffset first reads the line's opening
SET_BEGIN, raising the depth to 1. -/
lemma moveToArgumentOffset_enter (toks : List Tok) (line : IfcLine) (i : Int)
    (h : toks.get? line.tapeOffset = some .SET_BEGIN) :
    MoveToArgumentOffset toks line i =
      moveToArgLoop toks i toks.length (line.tapeOffset + 1) (-1) 1 := by
  rw [MoveToArgumentOffset,
    moveToArgLoop.eq_3 toks i line.tapeOffset (-1) 0 toks.length Tok.SET_BEGIN h]
  norm_num [Tok.tag]

/-- The loop over a flat argument region: with the cursor at the first of n
non-bracket tokens followed by the closing SET_END, and the counter never
hitting the requested index while inside the region, the loop ends at the
SET_END - reporting found if the counter reaches the index exactly there,
and otherwise returning through the depth-0 exit just past it. -/
lemma moveToArgLoop_flat (toks : List Tok) (i : Int) :
    ∀ (elems : List Tok) (c fuel : Nat) (mo : Int),
      elems.length + 1 ≤ fuel →
      (∀ j (hj : j < elems.length), toks.get? (c + j) = some (elems.get ⟨j, hj⟩)) →
      (∀ t ∈ elems, t.tag ≠ IfcTokenType.SET_BEGIN ∧ t.tag ≠ IfcTokenType.SET_END) →
      toks.get? (c + elems.length) = some .SET_END →
      (∀ j : Nat, j < elems.length → mo + 1 + j ≠ i) →
      moveToArgLoop toks i fuel c mo 1 =
        if mo + 1 + elems.length = i then .found (c + elems.length)
        else .closed (c + elems.length + 1) := by
  intro elems
  induction elems with
  | nil =>
    intro c fuel mo hfuel hEl hflat hSE hno
    obtain ⟨f, rfl⟩ : ∃ f, fuel = f + 1 := ⟨fuel - 1, by omega⟩
    simp only [List.length_nil, Nat.add_zero] at hSE ⊢
    rw [moveToArgLoop.eq_3 toks i c mo 1 f Tok.SET_END hSE]
    by_cases hi : mo + 1 = i
    · simp [hi]
    · have hi' : ¬ (mo + 1 + (0 : Int) = i) := by omega
      simp [hi, hi', Tok.tag]
  | cons e es ih =>
    intro c fuel mo hfuel hEl hflat hSE hno
    obtain ⟨f, rfl⟩ : ∃ f, fuel = f + 1 := ⟨fuel - 1, by omega⟩
    have hi0 : mo + 1 ≠ i := by
      have := hno 0 (by simp)
      simpa using this
    have hE0 : toks.get? c = some e := by
      have := hEl 0 (by simp)
      simpa using this
    obtain ⟨hnb, hne⟩ := hflat e (List.mem_cons_self e es)
    rw [moveToArgLoop.eq_3 toks i c mo 1 f e hE0]
    simp only [show ((1 : Int) = 1) = True from by simp, if_true, true_and, hi0, if_false,
      if_neg hnb, if_neg hne, ite_false]
    have hrec := ih (c + 1) f (mo + 1)
      (by simpa using hfuel)
      (by
        intro j hj
        have := hEl (j + 1) (by simpa using Nat.succ_lt_succ hj)
        have harith : c + (j + 1) = c + 1 + j := by omega
        rw [harith] at this
        simpa using this)
      (fun t ht => hflat t (List.mem_cons_of_mem e ht))
      (by
        have harith : c + (e :: es).length = c + 1 + es.length := by
          simp [List.length_cons]
          omega
        rw [harith] at hSE
        exact hSE)
      (by
        intro j hj
        have := hno (j + 1) (by simpa using Nat.succ_lt_succ hj)
        intro hcon
        apply this
        push_cast at hcon ⊢
        omega)
    rw [hrec]
    have hcond : ((mo + 1) + 1 + (es.length : Int) = i) ↔
        (mo + 1 + ((e :: es).length : Int) = i) := by
      simp only [List.length_cons]
      push_cast
      constructor <;> intro hh <;> omega
    have harg1 : c + 1 + es.length = c + (e :: es).length := by
      simp [List.length_cons]
      omega
    have harg2 : c + 1 + es.length + 1 = c + (e :: es).length + 1 := by omega
    by_cases hcase : mo + 1 + ((e :: es).length : Int) = i
    · rw [if_pos (hcond.mpr hcase), if_pos hcase, harg1]
    · rw [if_neg (fun hh => hcase (hcond.mp hh)), if_neg hcase, harg2]

/-- C3, counterexample: the claim is false as stated.  On a line with zero
top-level arguments (region ( ) ;), requesting argument 1 does not fail
with any ArgumentOutOfRange error - the translated result type of
MoveToArgumentOffset has no error alternative because the source function
has no error path - it returns silently through the depth-0 exit, leaving
the cursor at the fixed position just past the closing SET_END. -/
theorem moveToArgumentOffset_no_error_on_missing_argument :
    MoveToArgumentOffset [Tok.SET_BEGIN, Tok.SET_END, Tok.LINE_END] ⟨1, 0, 5, 0, 3⟩ 1 =
      MoveResult.closed 2 := by decide

/-- C3 as amended: when a line (with a flat argument region of n non-bracket
tokens) has fewer than i+1 top-level arguments, MoveToArgumentOffset never
raises an error: if n = i it returns through the found path with the cursor
ON the closing SET_END, and if n < i it returns silently through the
depth-0 exit with the cursor just past the closing SET_END.  Either way the
cursor position is fully determined. -/
theorem moveToArgumentOffset_missing_argument (toks : List Tok) (line : IfcLine)
    (elems : List Tok) (i : Int)
    (hSB : toks.get? line.tapeOffset = some .SET_BEGIN)
    (hEl : ∀ j (hj : j < elems.length),
      toks.get? (line.tapeOffset + 1 + j) = some (elems.get ⟨j, hj⟩))
    (hflat : ∀ t ∈ elems, t.tag ≠ IfcTokenType.SET_BEGIN ∧ t.tag ≠ IfcTokenType.SET_END)
    (hSE : toks.get? (line.tapeOffset + 1 + elems.length) = some .SET_END)
    (hle : (elems.length : Int) ≤ i) :
    MoveToArgumentOffset toks line i =
      if (elems.length : Int) = i then MoveResult.found (line.tapeOffset + 1 + elems.length)
      else MoveResult.closed (line.tapeOffset + 1 + elems.length + 1) := by
  rw [moveToArgumentOffset_enter toks line i hSB]
  have hlen : line.tapeOffset + 1 + elems.length < toks.length := by
    have := List.get?_eq_some.mp hSE
    exact this.1
  have h := moveToArgLoop_flat toks i elems (line.tapeOffset + 1) toks.length (-1)
    (by omega) hEl hflat hSE
    (by intro j hj; push_cast; omega)
  rw [h]
  have hcond : (-1 + 1 + (elems.length : Int) = i) ↔ ((elems.length : Int) = i) := by
    constructor <;> intro hh <;> omega
  by_cases hcase : (elems.length : Int) = i
  · rw [if_pos (hcond.mpr hcase), if_pos hcase]
  · rw [if_neg (fun hh => hcase (hcond.mp hh)), if_neg hcase]

/-- Witness for the amended C3: a line with the single argument #7, asked
for argument 5, returns silently with the cursor at offset 3, just past the
closing SET_END. -/
theorem moveToArgumentOffset_missing_argument_witness :
    MoveToArgumentOffset [Tok.SET_BEGIN, Tok.REF 7, Tok.SET_END, Tok.LINE_END]
      ⟨1, 0, 5, 0, 4⟩ 5 = MoveResult.closed 3 := by
  have h := moveToArgumentOffset_missing_argument
    [Tok.SET_BEGIN, Tok.REF 7, Tok.SET_END, Tok.LINE_END] ⟨1, 0, 5, 0, 4⟩ [Tok.REF 7] 5
    rfl
    (by
      intro j hj
      have hj0 : j = 0 := by simpa using hj
      subst hj0
      rfl)
    (by
      intro t ht
      have ht' : t = Tok.REF 7 := by simpa using ht
      subst ht'
      exact ⟨by decide, by decide⟩)
    rfl
    (by norm_num)
  rw [h]
  norm_num

/-! ## C6: ReadLinearScalingFactor -/

/-- C6: when the model's single IFCPROJECT line resolves through its
argument 8 (the units-in-context REF) to a unit-assignment line whose
argument-0 set holds one element resolving to an IFCSIUNIT line with unit
type LENGTHUNIT (argument 1), a prefix ENUM (argument 2) and unit name
METRE (argument 3), ReadLinearScalingFactor stores the tabled multiplier
ConvertPrefix of that prefix as the linear scaling factor.  The hypotheses
are exactly the resolution steps the source performs. -/
theorem readLinearScalingFactor_sets_prefix
    (toks : List Tok) (md : IfcMetaData) (pid uid sid : Nat)
    (c cr c2 cs1 uoff c3 c4 cs2 c5 c6 cm : Nat) (pfx : String)
    (h1 : GetExpressIDsWithType md IFCPROJECT = [pid])
    (h2 : MoveToArgumentOffset toks (GetLine md (ExpressIDToLineID md pid)) 8 =
      MoveResult.found c)
    (h3 : GetRefArgument toks c = some (uid, cr))
    (h4 : MoveToArgumentOffset toks (GetLine md (ExpressIDToLineID md uid)) 0 =
      MoveResult.found c2)
    (h5 : GetSetArgument toks c2 = some ([uoff], cs1))
    (h6 : GetRefArgumentAt toks uoff = some (sid, c3))
    (h7 : (GetLine md (ExpressIDToLineID md sid)).ifcType = IFCSIUNIT)
    (h8 : MoveToArgumentOffset toks (GetLine md (ExpressIDToLineID md sid)) 1 =
      MoveResult.found c4)
    (h9 : GetStringArgument toks c4 = some ("LENGTHUNIT", cs2))
    (h10 : MoveToArgumentOffset toks (GetLine md (ExpressIDToLineID md sid)) 2 =
      MoveResult.found c5)
    (h11 : toks.get? c5 = some (.ENUM pfx))
    (h12 : MoveToArgumentOffset toks (GetLine md (ExpressIDToLineID md sid)) 3 =
      MoveResult.found c6)
    (h13 : GetStringArgument toks c6 = some ("METRE", cm)) :
    (ReadLinearScalingFactor toks md).linearScalingFactor = ConvertPrefix pfx := by
  rw [ReadLinearScalingFactor, h1]
  simp only [List.length_cons, List.length_nil, List.headD, ne_eq, not_true_eq_false,
    if_false, ite_false]
  rw [h2]
  dsimp only [moveCursor]
  rw [h3]
  dsimp only
  rw [h4]
  dsimp only [moveCursor]
  rw [h5]
  dsimp only [List.foldl_cons, List.foldl_nil]
  rw [processUnit, h6]
  dsimp only
  rw [if_pos h7, h8]
  dsimp only [moveCursor]
  rw [h9]
  dsimp only
  rw [h10]
  dsimp only [moveCursor]
  have htok : GetTokenType toks c5 = some (IfcTokenType.ENUM, c5 + 1) := by
    rw [GetTokenType, h11]
    rfl
  rw [htok]
  dsimp only
  have h11x : GetStringArgument toks (c5 + 1 - 1) = some (pfx, c5 + 1 - 1 + 1) := by
    have hc : c5 + 1 - 1 = c5 := by omega
    rw [hc, GetStringArgument, h11]
  rw [h11x]
  dsimp only
  rw [h12]
  dsimp only [moveCursor]
  rw [h13]
  dsimp only
  rw [if_pos (by exact ⟨rfl, rfl⟩)]

/-- The tokenized data section of the spec's minimal scenario S1:
line 1 is the IFCPROJECT (#1, nine arguments, argument 8 = #3), line 2 the
IFCUNITASSIGNMENT (#3, argument 0 = (#4)), line 3 the IFCSIUNIT
(#4 = ( * .LENGTHUNIT. .MILLI. .METRE. )). -/
def s1Toks : List Tok :=
  [.SET_BEGIN, .STRING ("g"), .EMPTY, .STRING ("p"), .EMPTY, .EMPTY, .EMPTY, .EMPTY,
   .SET_BEGIN, .REF 2, .SET_END, .REF 3, .SET_END, .LINE_END,
   .SET_BEGIN, .SET_BEGIN, .REF 4, .SET_END, .SET_END, .LINE_END,
   .SET_BEGIN, .UNKNOWN, .ENUM ("LENGTHUNIT"), .ENUM ("MILLI"), .ENUM ("METRE"),
   .SET_END, .LINE_END]

/-- The metadata the parser builds for s1Toks: three line records in file
order, handle map entries for #1, #3 and #4, and the three type-index
entries. -/
def s1Md : IfcMetaData :=
  { emptyMetaData with
    lines := [⟨1, 0, IFCPROJECT, 0, 14⟩, ⟨3, 1, IFCUNITASSIGNMENT, 14, 20⟩,
              ⟨4, 2, IFCSIUNIT, 20, 27⟩]
    expressIDToLine := [0, 0, 0, 1, 2]
    ifcTypeToLineID := fun t =>
      if t = IFCPROJECT then [0]
      else if t = IFCUNITASSIGNMENT then [1]
      else if t = IFCSIUNIT then [2]
      else [] }

/-- Witness for C6 on scenario S1: the .MILLI. prefix yields a linear
scaling factor of exactly 0.001. -/
theorem readLinearScalingFactor_sets_prefix_witness :
    (ReadLinearScalingFactor s1Toks s1Md).linearScalingFactor = 1 / 1000 := by
  have h := readLinearScalingFactor_sets_prefix s1Toks s1Md 1 3 4
    11 12 15 18 16 17 22 23 23 24 25 ("MILLI")
    (by decide) (by decide) (by decide) (by decide) (by decide) (by decide)
    (by decide) (by decide) (by decide) (by decide) (by decide) (by decide)
    (by decide)
  rw [h]
  rfl

/-! ## C7: PopulateStyledItemMap -/

/-- If the counter reaches the argument index at depth 1, the loop reports
found at the current cursor without reading further. -/
lemma moveToArgLoop_found_now (toks : List Tok) (i : Int) (fuel c : Nat) (mo : Int)
    (h : mo + 1 = i) : moveToArgLoop toks i fuel c mo 1 = .found c := by
  cases fuel with
  | zero => rw [moveToArgLoop.eq_1]; simp [h]
  | succ f =>
    cases hg : toks.get? c with
    | none => rw [moveToArgLoop.eq_2 toks i c mo 1 f hg]; simp [h]
    | some t => rw [moveToArgLoop.eq_3 toks i c mo 1 f t hg]; simp [h]

/-- Moving to argument 0 of a line whose region starts with SET_BEGIN lands
on the token right after it. -/
lemma moveToArgumentOffset_zero (toks : List Tok) (line : IfcLine)
    (h : toks.get? line.tapeOffset = some .SET_BEGIN) :
    MoveToArgumentOffset toks line 0 = .found (line.tapeOffset + 1) := by
  rw [moveToArgumentOffset_enter toks line 0 h]
  exact moveToArgLoop_found_now toks 0 toks.length (line.tapeOffset + 1) (-1) (by norm_num)

/-- The GetSetArgument loop over a flat run of n REF tokens closed by a
SET_END records exactly the n consecutive offsets and stops just past the
SET_END. -/
lemma getSetLoop_flat_refs (toks : List Tok) :
    ∀ (refs : List Nat) (c fuel : Nat) (acc : List Nat),
      refs.length + 1 ≤ fuel →
      (∀ j, j < refs.length → toks.get? (c + j) = some (.REF (refs.getD j 0))) →
      toks.get? (c + refs.length) = some .SET_END →
      getSetLoop toks fuel c 1 acc =
        some (acc ++ idxRange c refs.length, c + refs.length + 1) := by
  intro refs
  induction refs with
  | nil =>
    intro c fuel acc hfuel hEl hSE
    obtain ⟨f, rfl⟩ : ∃ f, fuel = f + 1 := ⟨fuel - 1, by omega⟩
    simp only [List.length_nil, Nat.add_zero] at hSE ⊢
    rw [getSetLoop, hSE]
    simp [Tok.tag, idxRange_zero]
  | cons r rs ih =>
    intro c fuel acc hfuel hEl hSE
    obtain ⟨f, rfl⟩ : ∃ f, fuel = f + 1 := ⟨fuel - 1, by omega⟩
    have hE0 : toks.get? c = some (.REF r) := by
      have := hEl 0 (by simp)
      simpa using this
    rw [getSetLoop, hE0]
    simp only [Tok.tag,
      show (IfcTokenType.REF = IfcTokenType.SET_BEGIN) = False from by simp,
      show (IfcTokenType.REF = IfcTokenType.SET_END) = False from by simp,
      show ((1 : Int) = 0) = False from by norm_num,
      if_false, ite_false, or_self]
    have hstep := ih (c + 1) f (acc ++ [c])
      (by simpa using hfuel)
      (by
        intro j hj
        have := hEl (j + 1) (by simpa using Nat.succ_lt_succ hj)
        have harith : c + (j + 1) = c + 1 + j := by omega
        rw [harith] at this
        simpa using this)
      (by
        have harith : c + (r :: rs).length = c + 1 + rs.length := by
          simp [List.length_cons]
          omega
        rw [harith] at hSE
        exact hSE)
    rw [hstep]
    simp only [List.length_cons, idxRange_succ]
    have hnum : c + 1 + rs.length + 1 = c + (rs.length + 1) + 1 := by omega
    rw [hnum]
    simp

/-- Folding the styled-item pair loop over n consecutive REF offsets appends
the n pairs (styledItemID, ref) in order under the representation item and
leaves every other key unchanged. -/
lemma styledItemLoop_flat (toks : List Tok) (sid rep : Nat) :
    ∀ (refs : List Nat) (c : Nat) (tbl : Nat → List (Nat × Nat)),
      (∀ j, j < refs.length → toks.get? (c + j) = some (.REF (refs.getD j 0))) →
      ∀ k, styledItemLoop toks sid rep (idxRange c refs.length) tbl k =
        if k = rep then tbl k ++ refs.map (fun s => (sid, s)) else tbl k := by
  intro refs
  induction refs with
  | nil =>
    intro c tbl _ k
    simp only [List.length_nil, idxRange_zero, styledItemLoop]
    simp only [List.foldl_nil, List.map_nil, List.append_nil]
    by_cases hk : k = rep <;> simp [hk]
  | cons r rs ih =>
    intro c tbl hEl k
    have hE0 : GetRefArgumentAt toks c = some (r, c + 1) := by
      have h0 := hEl 0 (by simp)
      simp only [Nat.add_zero] at h0
      rw [GetRefArgumentAt, GetRefArgument, h0]
      rfl
    simp only [List.length_cons, idxRange_succ, styledItemLoop, List.foldl_cons]
    rw [hE0]
    dsimp only
    have hrec := ih (c + 1)
      (fun k' => if k' = rep then tbl k' ++ [(sid, r)] else tbl k')
      (by
        intro j hj
        have := hEl (j + 1) (by simpa using Nat.succ_lt_succ hj)
        have harith : c + (j + 1) = c + 1 + j := by omega
        rw [harith] at this
        simpa using this)
      k
    rw [styledItemLoop] at hrec
    rw [hrec]
    by_cases hk : k = rep
    · simp [hk]
    · simp [hk]

/-- C7: for an IFCSTYLEDITEM line whose argument 0 is the REF repItem and
whose argument 1 is the flat set of style-assignment REFs, the styled-item
pass reads that set - the cursor sits right after the REF of argument 0,
so GetSetArgument consumes exactly argument 1 - and appends the pair
(styledItemHandle, styleAssignmentHandle) for each element, in order, to
styledItems[repItem]. -/
theorem populateStyledItemMap_appends (toks : List Tok) (md : IfcMetaData)
    (sid repItem : Nat) (refs : List Nat) (line : IfcLine)
    (hids : GetExpressIDsWithType md IFCSTYLEDITEM = [sid])
    (hline : GetLine md (ExpressIDToLineID md sid) = line)
    (hSB : toks.get? line.tapeOffset = some .SET_BEGIN)
    (hREF : toks.get? (line.tapeOffset + 1) = some (.REF repItem))
    (_hSB2 : toks.get? (line.tapeOffset + 2) = some .SET_BEGIN)
    (hEls : ∀ j, j < refs.length →
      toks.get? (line.tapeOffset + 3 + j) = some (.REF (refs.getD j 0)))
    (hSE : toks.get? (line.tapeOffset + 3 + refs.length) = some .SET_END) :
    (PopulateStyledItemMap toks md)._styledItems repItem =
      md._styledItems repItem ++ refs.map (fun s => (sid, s)) := by
  rw [PopulateStyledItemMap, hids]
  simp only [List.foldl_cons, List.foldl_nil]
  rw [hline, moveToArgumentOffset_zero toks line hSB]
  dsimp only [moveCursor]
  have htok : GetTokenType toks (line.tapeOffset + 1) =
      some (IfcTokenType.REF, line.tapeOffset + 1 + 1) := by
    rw [GetTokenType, hREF]
    rfl
  rw [htok]
  dsimp only
  have href : GetRefArgument toks (line.tapeOffset + 1 + 1 - 1) =
      some (repItem, line.tapeOffset + 2) := by
    have harith : line.tapeOffset + 1 + 1 - 1 = line.tapeOffset + 1 := by omega
    rw [harith, GetRefArgument, hREF]
  rw [href]
  dsimp only
  have hset : GetSetArgument toks (line.tapeOffset + 2) =
      some (idxRange (line.tapeOffset + 3) refs.length,
        line.tapeOffset + 3 + refs.length + 1) := by
    have hlen : line.tapeOffset + 3 + refs.length < toks.length :=
      (List.get?_eq_some.mp hSE).1
    rw [GetSetArgument]
    have harith : line.tapeOffset + 2 + 1 = line.tapeOffset + 3 := by omega
    rw [harith]
    have h := getSetLoop_flat_refs toks refs (line.tapeOffset + 3) (toks.length + 1) []
      (by omega) hEls hSE
    rw [h, List.nil_append]
  rw [hset]
  dsimp only
  have hloop := styledItemLoop_flat toks sid repItem refs (line.tapeOffset + 3)
    md._styledItems hEls repItem
  rw [hloop]
  simp

/-- The styled-item example line: #11 = IFCSTYLEDITEM(#9, (#5, #6), ...). -/
def w7Toks : List Tok :=
  [.SET_BEGIN, .REF 9, .SET_BEGIN, .REF 5, .REF 6, .SET_END, .SET_END, .LINE_END]

/-- Metadata holding the single styled-item line #11. -/
def w7Md : IfcMetaData :=
  { emptyMetaData with
    lines := [⟨11, 0, IFCSTYLEDITEM, 0, 8⟩]
    expressIDToLine := List.replicate 12 0
    ifcTypeToLineID := fun t => if t = IFCSTYLEDITEM then [0] else [] }

/-- Witness for C7: the styled-item pass on the example appends exactly the
pairs (11, 5) and (11, 6) under representation item 9. -/
theorem populateStyledItemMap_appends_witness :
    (PopulateStyledItemMap w7Toks w7Md)._styledItems 9 = [(11, 5), (11, 6)] := by
  have h := populateStyledItemMap_appends w7Toks w7Md 11 9 [5, 6] ⟨11, 0, IFCSTYLEDITEM, 0, 8⟩
    (by decide) (by decide) (by decide) (by decide) (by decide)
    (by
      intro j hj
      match j, hj with
      | 0, _ => rfl
      | 1, _ => rfl)
    (by decide)
  rw [h]
  rfl

/-! ## C8: GetLineIDsWithType at the public interface

The host binding that the TypeScript GetLineIDsWithType (web-ifc-api.ts
lines 240-243) calls lives in the wasm glue outside src/. -/

/-- Modelled from the spec: the public GetLineIDsWithType operation (the
binding called by web-ifc-api.ts, not under src/) returns the sequence of
handles of the lines of the requested type, which is what the loader's
GetExpressIDsWithType (web-ifc.h lines 93-103) computes. -/
def GetLineIDsWithType_api (md : IfcMetaData) (type : Nat) : List Nat :=
  GetExpressIDsWithType md type

/-- The metadata invariant maintained by the write path: the type index
lists, for each type, exactly the lineIndex fields of the records of that
type in record order, and every record sits at the position its lineIndex
names. -/
def TypeIndexInv (md : IfcMetaData) : Prop :=
  (∀ T, md.ifcTypeToLineID T =
    (md.lines.filter (fun l => l.ifcType == T)).map (fun l => l.lineIndex))
  ∧ (∀ i, i < md.lines.length → (md.lines.getD i dummyLine).lineIndex = i)

/-- The empty metadata satisfies the invariant. -/
lemma typeIndexInv_empty : TypeIndexInv emptyMetaData := by
  constructor
  · intro T; rfl
  · intro i h; simp [emptyMetaData] at h

/-- Replacing the record at position k by one with the same ifcType and
lineIndex leaves the filtered lineIndex projection unchanged. -/
lemma filter_map_set (L : List IfcLine) :
    ∀ (k : Nat) (b : IfcLine),
      b.ifcType = (L.getD k dummyLine).ifcType →
      b.lineIndex = (L.getD k dummyLine).lineIndex →
      ∀ T, ((L.set k b).filter (fun l => l.ifcType == T)).map (fun l => l.lineIndex) =
        (L.filter (fun l => l.ifcType == T)).map (fun l => l.lineIndex) := by
  induction L with
  | nil => intro k b _ _ T; simp
  | cons x xs ih =>
    intro k b hbt hbi T
    cases k with
    | zero =>
      simp only [List.getD_cons_zero] at hbt hbi
      simp only [List.set_cons_zero, List.filter_cons]
      by_cases hx : x.ifcType == T
      · have hb : (b.ifcType == T) = true := by
          rw [hbt]; exact hx
        simp only [hx, hb, if_true, List.map_cons, hbi]
      · have hb : (b.ifcType == T) = false := by
          rw [hbt]; simpa using hx
        simp only [hx, hb]
        simp
    | succ k' =>
      simp only [List.getD_cons_succ] at hbt hbi
      simp only [List.set_cons_succ, List.filter_cons]
      by_cases hx : x.ifcType == T
      · simp only [hx, if_true, List.map_cons, ih k' b hbt hbi T]
      · simp only [hx]
        simp only [Bool.false_eq_true, if_false, ite_false]
        exact ih k' b hbt hbi T

lemma getD_append_left (L M : List IfcLine) :
    ∀ (i : Nat) (d : IfcLine), i < L.length → (L ++ M).getD i d = L.getD i d := by
  induction L with
  | nil => intro i d h; simp at h
  | cons x xs ih =>
    intro i d h
    cases i with
    | zero => rfl
    | succ j =>
      simp only [List.cons_append, List.getD_cons_succ]
      exact ih j d (by simpa using h)

lemma getD_concat_length (L : List IfcLine) (a d : IfcLine) :
    (L ++ [a]).getD L.length d = a := by
  induction L with
  | nil => rfl
  | cons x xs ih => simp only [List.cons_append, List.length_cons, List.getD_cons_succ, ih]

lemma getD_set_self (L : List IfcLine) :
    ∀ (k : Nat) (b d : IfcLine), k < L.length → (L.set k b).getD k d = b := by
  induction L with
  | nil => intro k b d h; simp at h
  | cons x xs ih =>
    intro k b d h
    cases k with
    | zero => rfl
    | succ j =>
      simp only [List.set_cons_succ, List.getD_cons_succ]
      exact ih j b d (by simpa using h)

lemma getD_set_other (L : List IfcLine) :
    ∀ (k j : Nat) (b d : IfcLine), k ≠ j → (L.set k b).getD j d = L.getD j d := by
  induction L with
  | nil => intro k j b d _; simp
  | cons x xs ih =>
    intro k j b d hne
    cases k with
    | zero =>
      cases j with
      | zero => exact absurd rfl hne
      | succ j' => rfl
    | succ k' =>
      cases j with
      | zero => rfl
      | succ j' =>
        simp only [List.set_cons_succ, List.getD_cons_succ]
        exact ih k' j' b d (fun hh => hne (by rw [hh]))

/-- Setting the tape region of an existing record (same ifcType, same
lineIndex) preserves the invariant. -/
lemma typeIndexInv_set_region (md : IfcMetaData) (k s f : Nat)
    (h : TypeIndexInv md) :
    TypeIndexInv
      { md with
        lines := md.lines.set k
          { md.lines.getD k dummyLine with tapeOffset := s, tapeEnd := f } } := by
  obtain ⟨h1, h2⟩ := h
  constructor
  · intro T
    simp only
    rw [filter_map_set md.lines k
      ({ md.lines.getD k dummyLine with tapeOffset := s, tapeEnd := f }) rfl rfl T]
    exact h1 T
  · intro i hi
    simp only [List.length_set] at hi
    simp only
    by_cases hk : k = i
    · subst hk
      rw [getD_set_self md.lines k _ dummyLine hi]
      exact h2 k hi
    · rw [getD_set_other md.lines k i _ dummyLine hk]
      exact h2 i hi

/-- UpdateLineTape preserves the invariant: a new handle appends one record
of the given type at position n = lines.length and appends n to the type
index; both branches finish by rewriting only the tape region of one
record. -/
lemma typeIndexInv_updateLineTape (md : IfcMetaData) (e t s f : Nat)
    (h : TypeIndexInv md) : TypeIndexInv (UpdateLineTape md e t s f) := by
  rw [UpdateLineTape]
  by_cases hc : e ≥ md.expressIDToLine.length ∨ md.expressIDToLine.getD e 0 = 0
  · rw [if_pos hc]
    set n := md.lines.length with hn
    have hmid : TypeIndexInv
        { md with
          lines := md.lines ++ [⟨e, n, t, 0, 0⟩]
          expressIDToLine := (vresize md.expressIDToLine (e * 2)).set e n
          ifcTypeToLineID := fun T =>
            if T = t then md.ifcTypeToLineID T ++ [n] else md.ifcTypeToLineID T } := by
      obtain ⟨h1, h2⟩ := h
      constructor
      · intro T
        dsimp only
        rw [List.filter_append, List.map_append]
        by_cases hT : T = t
        · rw [hT, if_pos rfl, h1 t]
          have hb : List.filter (fun l => l.ifcType == t) [(⟨e, n, t, 0, 0⟩ : IfcLine)] =
              [⟨e, n, t, 0, 0⟩] := by simp
          rw [hb]
          simp
        · rw [if_neg hT, h1 T]
          have hb : List.filter (fun l => l.ifcType == T) [(⟨e, n, t, 0, 0⟩ : IfcLine)] =
              [] := by
            simp only [List.filter_cons, List.filter_nil]
            have : ((⟨e, n, t, 0, 0⟩ : IfcLine).ifcType == T) = false := by
              simp only [beq_eq_false_iff_ne, ne_eq]
              exact fun hh => hT hh.symm
            rw [this]
            simp
          rw [hb]
          simp
      · intro i hi
        simp only [List.length_append, List.length_cons, List.length_nil] at hi
        by_cases hin : i < md.lines.length
        · simp only [getD_append_left md.lines _ i dummyLine hin]
          exact h2 i hin
        · have : i = n := by omega
          subst this
          rw [hn, getD_concat_length]
    exact typeIndexInv_set_region _ _ s f hmid
  · rw [if_neg hc]
    exact typeIndexInv_set_region _ _ s f h

/-- A model built by a sequence of write operations: each parsed or written
line passes through UpdateLineTape (the parser's insertion in section 4.3
step 5 is the same record append and indexing). -/
def buildMD (writes : List (Nat × Nat × Nat × Nat)) : IfcMetaData :=
  writes.foldl (fun m w => UpdateLineTape m w.1 w.2.1 w.2.2.1 w.2.2.2) emptyMetaData

/-- Every built model satisfies the type-index invariant. -/
lemma typeIndexInv_buildMD (writes : List (Nat × Nat × Nat × Nat)) :
    TypeIndexInv (buildMD writes) := by
  rw [buildMD]
  have hgen : ∀ (ws : List (Nat × Nat × Nat × Nat)) (m : IfcMetaData), TypeIndexInv m →
      TypeIndexInv (ws.foldl (fun m w => UpdateLineTape m w.1 w.2.1 w.2.2.1 w.2.2.2) m) := by
    intro ws
    induction ws with
    | nil => intro m hm; exact hm
    | cons w rest ih =>
      intro m hm
      rw [List.foldl_cons]
      exact ih _ (typeIndexInv_updateLineTape m w.1 w.2.1 w.2.2.1 w.2.2.2 hm)
  exact hgen writes emptyMetaData typeIndexInv_empty

/-- Under the position half of the invariant, every record can be looked up
through its own lineIndex. -/
lemma getD_of_mem (md : IfcMetaData)
    (h2 : ∀ i, i < md.lines.length → (md.lines.getD i dummyLine).lineIndex = i)
    (l : IfcLine) (hl : l ∈ md.lines) :
    md.lines.getD l.lineIndex dummyLine = l := by
  obtain ⟨i, hget⟩ := List.mem_iff_get.mp hl
  have hD : md.lines.getD i.1 dummyLine = l := by
    rw [List.getD_eq_getElem?_getD, List.getElem?_eq_getElem i.2]
    simp only [Option.getD_some]
    rw [← hget]
    simp
  have hidx := h2 i.1 i.2
  rw [hD] at hidx
  rw [hidx, hD]

/-- Under the invariant, GetExpressIDsWithType lists the handles of exactly
the records of the requested type, in record order. -/
lemma getExpressIDsWithType_of_inv (md : IfcMetaData) (hinv : TypeIndexInv md) (T : Nat) :
    GetExpressIDsWithType md T =
      (md.lines.filter (fun l => l.ifcType == T)).map (fun l => l.expressID) := by
  obtain ⟨h1, h2⟩ := hinv
  rw [GetExpressIDsWithType, h1 T, List.map_map]
  refine List.map_congr_left ?_
  intro l hl
  have hm : l ∈ md.lines := List.mem_of_mem_filter hl
  simp only [Function.comp]
  rw [GetLine, getD_of_mem md h2 l hm]

/-- C8: for every model built by any write sequence and every type code,
the public GetLineIDsWithType operation returns the handles (ExpressIDs) of
exactly the lines whose type code is T, in insertion order. -/
theorem getLineIDsWithType_returns_handles
    (writes : List (Nat × Nat × Nat × Nat)) (T : Nat) :
    GetLineIDsWithType_api (buildMD writes) T =
      ((buildMD writes).lines.filter (fun l => l.ifcType == T)).map
        (fun l => l.expressID) := by
  rw [GetLineIDsWithType_api]
  exact getExpressIDsWithType_of_inv (buildMD writes) (typeIndexInv_buildMD writes) T

/-! ## C9: the TypeScript WriteLine mutation -/

/-- The array branch replaces exactly the expressID-carrying elements. -/
lemma writeElems_snd (es : List JsVal) :
    (writeElems es).2 = es.map (fun v =>
      match v with
      | .entity e _ _ => .refVal 5 e
      | x => x) := by
  induction es with
  | nil => rfl
  | cons v rest ih =>
    cases v with
    | entity e t ps => simp only [writeElems, List.map_cons, ih]
    | num q => simp only [writeElems, List.map_cons, ih]
    | str s => simp only [writeElems, List.map_cons, ih]
    | refVal a b => simp only [writeElems, List.map_cons, ih]
    | arr inner => simp only [writeElems, List.map_cons, ih]

/-- One property value is mutated exactly as replacedVal describes. -/
lemma writeProp_snd (v : JsVal) : (writeProp v).2 = replacedVal v := by
  cases v with
  | entity e t ps => rfl
  | num q => rfl
  | str s => rfl
  | refVal a b => rfl
  | arr es =>
    simp only [writeProp, replacedVal]
    exact congrArg JsVal.arr (writeElems_snd es)

/-- The property list after WriteLine is the pointwise replacedVal image of
the caller's property list. -/
lemma writeProps_snd (ps : List (String × JsVal)) :
    (writeProps ps).2 = ps.map (fun kv => (kv.1, replacedVal kv.2)) := by
  induction ps with
  | nil => rfl
  | cons kv rest ih =>
    simp only [writeProps, List.map_cons, ih, writeProp_snd]

/-- An entity element of an array is written: its raw line appears in the
element loop's write list. -/
lemma writeElems_mem (es : List JsVal) (e' t' : Nat) (ps' : List (String × JsVal))
    (h : JsVal.entity e' t' ps' ∈ es) :
    (⟨e', t', (writeProps ps').2⟩ : WriteRec) ∈ (writeElems es).1 := by
  induction es with
  | nil => simp at h
  | cons v rest ih =>
    rcases List.mem_cons.mp h with heq | hmem
    · subst heq
      simp [writeElems]
    · cases v with
      | entity e t ps => simp only [writeElems]; simp [ih hmem]
      | num q => simp only [writeElems]; exact ih hmem
      | str s => simp only [writeElems]; exact ih hmem
      | refVal a b => simp only [writeElems]; exact ih hmem
      | arr inner => simp only [writeElems]; exact ih hmem

/-- An entity-valued property is written: its raw line appears in the
property loop's write list. -/
lemma writeProps_mem (ps : List (String × JsVal)) (k : String) (v : JsVal)
    (e' t' : Nat) (ps' : List (String × JsVal))
    (hmem : (k, v) ∈ ps) (hv : v = .entity e' t' ps') :
    (⟨e', t', (writeProps ps').2⟩ : WriteRec) ∈ (writeProps ps).1 := by
  subst hv
  induction ps with
  | nil => simp at hmem
  | cons kv rest ih =>
    rcases List.mem_cons.mp hmem with heq | htail
    · subst heq
      simp [writeProps, writeProp]
    · obtain ⟨k0, v0⟩ := kv
      simp only [writeProps]
      simp [ih htail]

/-- An entity element of an array-valued property is written: its raw line
appears in the property loop's write list. -/
lemma writeProps_arr_mem (ps : List (String × JsVal)) (k : String) (es : List JsVal)
    (e' t' : Nat) (ps' : List (String × JsVal))
    (hmem : (k, JsVal.arr es) ∈ ps) (hel : JsVal.entity e' t' ps' ∈ es) :
    (⟨e', t', (writeProps ps').2⟩ : WriteRec) ∈ (writeProps ps).1 := by
  induction ps with
  | nil => simp at hmem
  | cons kv rest ih =>
    rcases List.mem_cons.mp hmem with heq | htail
    · subst heq
      simp only [writeProps, writeProp]
      simp [writeElems_mem es e' t' ps' hel]
    · obtain ⟨k0, v0⟩ := kv
      simp only [writeProps]
      simp [ih htail]

/-- C9: WriteLine mutates the caller's line object in place - rendered
here by returning the mutated tree: every property (and every array
element) that is an entity carrying an expressID is replaced by the handle
object with type 5 and that expressID, after the entity itself has been
recursively written (its raw line, with its own properties likewise
mutated, appears in the emitted write list before the caller's raw line,
which always comes last and carries the mutated property list). -/
theorem writeLine_mutates_argument (e t : Nat) (ps : List (String × JsVal)) :
    (WriteLine e t ps).2 = ps.map (fun kv => (kv.1, replacedVal kv.2))
    ∧ (WriteLine e t ps).1 =
        (writeProps ps).1 ++ [⟨e, t, ps.map (fun kv => (kv.1, replacedVal kv.2))⟩]
    ∧ (∀ (k : String) (v : JsVal) (e' t' : Nat) (ps' : List (String × JsVal)),
        (k, v) ∈ ps → v = .entity e' t' ps' →
          (⟨e', t', ps'.map (fun kv => (kv.1, replacedVal kv.2))⟩ : WriteRec) ∈
            (writeProps ps).1)
    ∧ (∀ (k : String) (es : List JsVal) (e' t' : Nat) (ps' : List (String × JsVal)),
        (k, JsVal.arr es) ∈ ps → JsVal.entity e' t' ps' ∈ es →
          (⟨e', t', ps'.map (fun kv => (kv.1, replacedVal kv.2))⟩ : WriteRec) ∈
            (writeProps ps).1) := by
  refine ⟨?_, ?_, ?_, ?_⟩
  · rw [WriteLine]
    exact writeProps_snd ps
  · rw [WriteLine]
    simp only [writeProps_snd ps]
  · intro k v e' t' ps' hmem hv
    have h := writeProps_mem ps k v e' t' ps' hmem hv
    rwa [writeProps_snd ps'] at h
  · intro k es e' t' ps' hmem hel
    have h := writeProps_arr_mem ps k es e' t' ps' hmem hel
    rwa [writeProps_snd ps'] at h

/-- The example line object of the witness: expressID 1, type 7, an
entity-valued property and an array-valued property with one entity
element. -/
def w9Props : List (String × JsVal) :=
  [("a", .entity 2 7 [("y", .num 3)]), ("b", .arr [.num 1, .entity 4 8 []])]

/-- Witness for C9: on the example object both nested entities are replaced
by type-5 handle objects in the returned (mutated) property list - which
therefore differs from the caller's original list - and both nested raw
lines are emitted. -/
theorem writeLine_mutates_argument_witness :
    (WriteLine 1 7 w9Props).2 =
      [("a", JsVal.refVal 5 2), ("b", JsVal.arr [JsVal.num 1, JsVal.refVal 5 4])]
    ∧ (WriteLine 1 7 w9Props).2 ≠ w9Props
    ∧ (⟨2, 7, [("y", JsVal.num 3)]⟩ : WriteRec) ∈ (writeProps w9Props).1
    ∧ (⟨4, 8, []⟩ : WriteRec) ∈ (writeProps w9Props).1 := by
  have h := writeLine_mutates_argument 1 7 w9Props
  have h1 : (WriteLine 1 7 w9Props).2 =
      [("a", JsVal.refVal 5 2), ("b", JsVal.arr [JsVal.num 1, JsVal.refVal 5 4])] := by
    rw [h.1]
    rfl
  refine ⟨h1, ?_, ?_, ?_⟩
  · rw [h1, w9Props]
    intro hcon
    simp only [List.cons.injEq, Prod.mk.injEq] at hcon
    exact absurd hcon.1.2 (by intro hh; cases hh)
  · have := h.2.2.1 ("a") (.entity 2 7 [("y", .num 3)]) 2 7 [("y", .num 3)]
      (by rw [w9Props]; exact List.mem_cons_self _ _) rfl
    simpa using this
  · have := h.2.2.2 ("b") [.num 1, .entity 4 8 []] 4 8 []
      (by rw [w9Props]; exact List.mem_cons_of_mem _ (List.mem_cons_self _ _)) (by simp)
    simpa using this
